import Mathlib

/-
Verification of the PANOPTES state-machine engine (pocs/state/machine.py).

The development shallowly embeds the engine: transition specs are records,
the mutable machine state (current state, next state, running flag, stored
table) is a record threaded explicitly, the run loop is a fueled recursion,
and Python exceptions are modelled with Except.  Python list/dict object
identity, where a claim is about aliasing, is modelled with an explicit heap
of lists indexed by natural-number references.
-/

namespace POCS

/-- A fully loaded transition spec as stored in the machine table:
trigger, source, dest and the condition names, mirroring the dicts in
`state_machine_table['transitions']` of machine.py. -/
structure TransitionSpec where
  trigger : String
  source : String
  dest : String
  conditions : List String
deriving Repr, DecidableEq, Inhabited

/-- `PanStateMachine._lookup_trigger` (machine.py lines 179-186): scan the
transitions of the stored table in declaration order and return the trigger
of the first one whose source equals the current state and whose dest equals
the desired next state; return the string parking when nothing matches.
`next_state` is an Option because the Python attribute may be None, and a
dest string never equals None. -/
def _lookup_trigger (transitions : List TransitionSpec)
    (state : String) (next_state : Option String) : String :=
  match transitions.find? (fun t => t.source == state && some t.dest == next_state) with
  | some t => t.trigger
  | none => "parking"

/-- The engine-owned mutable machine state: `self.state` (owned by the
underlying transition mechanism), `self._next_state`, `self._is_running`,
and the stored transition table `self._state_machine_table['transitions']`. -/
structure MachineState where
  state : String
  next_state : Option String
  is_running : Bool
  transitions : List TransitionSpec
deriving Repr, DecidableEq, Inhabited

/-- `PanStateMachine.stop_machine` (machine.py lines 109-111): set the
running flag to False; nothing else is touched. -/
def stop_machine (s : MachineState) : MachineState :=
  { s with is_running := false }

/-- The caller selected by the run loop body (machine.py lines 94-101):
look up the trigger for (current state, next state); if that name is truthy
and the machine has a bound method of that name, call it, otherwise fall
back to park.  `bound` is the set of trigger-method names the machine
object exposes. -/
def resolvedCaller (bound : List String) (s : MachineState) : String :=
  let call_method := _lookup_trigger s.transitions s.state s.next_state
  if call_method != "" && bound.contains call_method then call_method else "park"

/-- One iteration of the run loop body (machine.py lines 94-107).  The
invocation of the bound trigger method is the out-of-scope `transitions`
engine, modelled by the external function `invoke` following the contract
of spec section 4.4c: on success it yields the updated machine state, and
the mutation of the current state happens as the final step of a successful
invocation, so a raising invocation leaves the machine state as it was.
A raised exception is caught, logged and answered with `stop_machine`. -/
def runStep (invoke : String → MachineState → Except String MachineState)
    (bound : List String) (s : MachineState) : MachineState :=
  match invoke (resolvedCaller bound s) s with
  | .ok s' => s'
  | .error _ => stop_machine s

/-- The while loop of `PanStateMachine.run` (machine.py lines 92-107),
with explicit fuel: `none` models a loop that has not terminated within
the given fuel, `some` a normal return. -/
def runLoop (invoke : String → MachineState → Except String MachineState)
    (bound : List String) : Nat → MachineState → Option MachineState
  | 0, s => if s.is_running then none else some s
  | n + 1, s => if s.is_running then runLoop invoke bound n (runStep invoke bound s) else some s

/-- `PanStateMachine.run` (machine.py lines 80-107): set the running flag,
set the next state to ready, then loop while running. -/
def run (invoke : String → MachineState → Except String MachineState)
    (bound : List String) (fuel : Nat) (s : MachineState) : Option MachineState :=
  runLoop invoke bound fuel { s with is_running := true, next_state := some "ready" }

/-- The exceptions raised around machine construction: `error.InvalidConfig`
raised by `load_state_table`, the AssertionError of a failed assert in
`__init__`, and `error.NotFound` raised by `load_module`. -/
inductive PanError where
  | invalidConfig (msg : String)
  | assertionError
  | notFound (msg : String)
deriving Repr, DecidableEq

/-- A reference into the condition-list heap, modelling Python list object
identity for the aliasing claims. -/
abbrev CondRef := Nat

/-- A raw transition dict as parsed from the YAML table: the conditions key
is absent (`none`) or holds a reference to a list object on the heap. -/
structure TransitionDict where
  trigger : String
  source : String
  dest : String
  conditions : Option CondRef
deriving Repr, DecidableEq, Inhabited

/-- The parsed top-level YAML table: the required keys states and
transitions may be absent, plus the optional initial and name keys. -/
structure StateTableDict where
  states : Option (List String)
  transitions : Option (List TransitionDict)
  initial : Option String
  name : Option String
deriving Repr, DecidableEq, Inhabited

/-- The outcome of reading and parsing the state-table resource file:
the open/read can raise an OSError, yaml.load can raise a parse error,
or a table is produced. -/
inductive YamlResource where
  | osError
  | parseError
  | parsed (table : StateTableDict)
deriving Repr, DecidableEq

/-- `PanStateMachine.load_state_table` (machine.py lines 146-173): an
OSError while reading, and any other exception while parsing, are both
converted into `error.InvalidConfig`; a successfully parsed table is
returned as is, with no key validation performed here. -/
def load_state_table (res : YamlResource) : Except PanError StateTableDict :=
  match res with
  | .osError => .error (.invalidConfig "Problem loading state table yaml file")
  | .parseError => .error (.invalidConfig "Problem loading state table yaml file")
  | .parsed table => .ok table

/-- The construction prefix of `PanStateMachine.__init__` (machine.py lines
24-30) when given a table name: load the table, then assert that the keys
states and transitions are present; a failed assert raises AssertionError
and no machine is created.  A returned table stands for a construction that
proceeds past the checks. -/
def initStateMachine (res : YamlResource) : Except PanError StateTableDict :=
  match load_state_table res with
  | .error e => .error e
  | .ok table =>
    if table.states.isNone then .error .assertionError
    else if table.transitions.isNone then .error .assertionError
    else .ok table

/-- Whether a construction outcome is the ConfigError of the error taxonomy,
which the code spells `error.InvalidConfig`. -/
def isConfigError (r : Except PanError StateTableDict) : Bool :=
  match r with
  | .error (.invalidConfig _) => true
  | _ => false

/-- How resolving the per-state behavior module turns out: `load_module`
raises `error.NotFound` when the import fails, otherwise the module loads
and either has or lacks an `on_enter` attribute. -/
inductive ModuleResolution where
  | importFailure
  | loaded (has_on_enter : Bool)
deriving Repr, DecidableEq

/-- The Python runtime errors the state loader can hit that are not caught:
referencing a local variable before assignment. -/
inductive PyRuntimeError where
  | unboundLocal (name : String)
deriving Repr, DecidableEq

/-- A constructed `transitions.State` with its registered enter callbacks in
registration order. -/
structure StateSpec where
  name : String
  enter_callbacks : List String
deriving Repr, DecidableEq, Inhabited

/-- `PanStateMachine._load_state` (machine.py lines 213-236), traced
faithfully: the local `s` is first assigned only after `load_module`
succeeds, so when the import raises, the except clause catches and logs the
error but the final `return s` then raises UnboundLocalError; when the
module loads without an `on_enter` attribute the if-branch is skipped and
the function returns None instead of a State; only when `on_enter` exists
is a State built, with the three enter callbacks registered in order. -/
def _load_state (resolution : ModuleResolution) (state : String) :
    Except PyRuntimeError (Option StateSpec) :=
  match resolution with
  | .importFailure => .error (.unboundLocal "s")
  | .loaded has_on_enter =>
    if has_on_enter then
      .ok (some { name := state,
                  enter_callbacks :=
                    ["_update_graph", "_update_status", "on_enter_" ++ state] })
    else
      .ok none

/-- `PanStateMachine._update_graph` (machine.py lines 188-208): the whole
body sits in a try/except that logs and swallows every exception, so the
callback never raises, whatever the underlying drawing effect does. -/
def _update_graph (graph_effect : Except String Unit) : Except String Unit :=
  match graph_effect with
  | .ok _ => .ok ()
  | .error _ => .ok ()

/-- `PanStateMachine._update_status` (machine.py lines 210-211): calls
`self.status()` with no protection, so an exception propagates. -/
def _update_status (status_effect : Except String Unit) : Except String Unit :=
  status_effect

/-- The enter-callback dispatch of the underlying `transitions` engine:
callbacks run sequentially in registration order and an exception raised by
one propagates, so the remaining callbacks do not run.  Returns the names
of the callbacks that were invoked together with the propagated error, if
any. -/
def runEnterCallbacks : List (String × Except String Unit) → List String × Option String
  | [] => ([], none)
  | (name, act) :: rest =>
    match act with
    | .ok _ =>
      let r := runEnterCallbacks rest
      (name :: r.1, r.2)
    | .error e => ([name], some e)

/-- Entering a state whose `on_enter` was resolved at load time: the three
callbacks registered by `_load_state`, dispatched by the engine, with the
graph drawing, the status refresh and the custom behavior supplied as
external effects. -/
def enterState (state : String)
    (graph_effect status_effect on_enter_effect : Except String Unit) :
    List String × Option String :=
  runEnterCallbacks
    [("_update_graph", _update_graph graph_effect),
     ("_update_status", _update_status status_effect),
     ("on_enter_" ++ state, on_enter_effect)]

/-- The heap of Python list objects holding condition names; a `CondRef`
indexes into it, modelling list object identity. -/
abbrev CondHeap := List (List String)

/-- The heap of transition dict objects; a dict reference indexes into it,
modelling dict object identity. -/
abbrev DictHeap := List TransitionDict

/-- The conditions reference held by the dict object at reference d. -/
def condRefOf (dicts : DictHeap) (d : Nat) : Option CondRef :=
  (dicts.getD d default).conditions

/-- Modelled from the spec: `pocs.utils.listify` is imported by machine.py
but its module is not under src/.  This models the composition
`listify(transition.get(conditions_key, []))`: the `get` call evaluates its
default argument to a fresh empty list object when the key is absent, and
the panoptes `listify` utility returns a list argument unchanged — the very
same object, in line with spec section 4.3, which has the loader work on
the condition list of each transition itself.  Over the heap: a present
reference is returned as is; an absent value allocates a fresh empty list
object at the end of the heap. -/
def listifyConditions (h : CondHeap) (c : Option CondRef) : CondHeap × CondRef :=
  match c with
  | some r => (h, r)
  | none => (h ++ [[]], h.length)

/-- `PanStateMachine._load_transition` (machine.py lines 238-248) over the
explicit object heaps, acting on the dict object at reference d: obtain the
condition list object via `listifyConditions`, mutate it in place with
`insert(0, check_safety)`, bind the conditions entry of the dict to that
object, and return the same dict object (the same reference). -/
def _load_transition (h : CondHeap) (dicts : DictHeap) (d : Nat) :
    CondHeap × DictHeap × Nat :=
  let c := listifyConditions h (dicts.getD d default).conditions
  (c.1.set c.2 ("check_safety" :: c.1.getD c.2 []),
   dicts.set d { dicts.getD d default with conditions := some c.2 },
   d)

/-- The contents of the condition list of the dict at reference d: the list
object it points to, or the empty list when the conditions key is absent. -/
def condListOf (h : CondHeap) (dicts : DictHeap) (d : Nat) : List String :=
  match condRefOf dicts d with
  | some r => h.getD r []
  | none => []

/-- The transition-loading comprehension of `PanStateMachine.__init__`
(machine.py line 39): apply `_load_transition` to each transition dict in
declaration order, threading the heaps through. -/
def loadTransitions (h : CondHeap) (dicts : DictHeap) :
    List Nat → CondHeap × DictHeap × List Nat
  | [] => (h, dicts, [])
  | d :: ds =>
    let step := _load_transition h dicts d
    let rest := loadTransitions step.1 step.2.1 ds
    (rest.1, rest.2.1, step.2.2 :: rest.2.2)

/-- A machine state that is not running makes the loop return at once. -/
theorem runLoop_not_running (invoke : String → MachineState → Except String MachineState)
    (bound : List String) (n : Nat) (s : MachineState) (h : s.is_running = false) :
    runLoop invoke bound n s = some s := by
  cases n <;> simp [runLoop, h]

/-- C3: for every (source, destination) pair for which no transition in the
table has matching source and dest — including when the destination is an
undeclared state name, since the lookup never consults the declared state
list — `_lookup_trigger` returns the reserved value parking. -/
theorem lookup_no_match_is_parking (transitions : List TransitionSpec)
    (state : String) (next_state : Option String)
    (h : ∀ t ∈ transitions, ¬(t.source = state ∧ some t.dest = next_state)) :
    _lookup_trigger transitions state next_state = "parking" := by
  unfold _lookup_trigger
  have hfind : transitions.find? (fun t => t.source == state && some t.dest == next_state) = none := by
    rw [List.find?_eq_none]
    intro t ht
    have := h t ht
    simp only [Bool.and_eq_true, beq_iff_eq]
    intro hcon
    exact this ⟨hcon.1, hcon.2⟩
  rw [hfind]

/-- C3 witness: a concrete table with one transition, queried at a pair with
no match whose destination name is not declared anywhere in the table. -/
theorem lookup_no_match_is_parking_witness :
    _lookup_trigger [⟨"park", "ready", "parking", ["check_safety"]⟩]
      "ready" (some "observing") = "parking" :=
  lookup_no_match_is_parking _ _ _ (by decide)

/-- C4: trigger lookup is a linear scan in table-declaration order: splitting
the table as pre ++ t :: post where nothing in pre matches and t matches, the
lookup returns the trigger of t, the first-declared matching transition —
in particular with two or more matching transitions the first-declared wins. -/
theorem lookup_first_declared_wins (pre post : List TransitionSpec)
    (t : TransitionSpec) (state : String) (next_state : Option String)
    (hpre : ∀ u ∈ pre, ¬(u.source = state ∧ some u.dest = next_state))
    (ht : t.source = state ∧ some t.dest = next_state) :
    _lookup_trigger (pre ++ t :: post) state next_state = t.trigger := by
  unfold _lookup_trigger
  have hfind : (pre ++ t :: post).find?
      (fun u => u.source == state && some u.dest == next_state) = some t := by
    rw [List.find?_append]
    have hnone : pre.find? (fun u => u.source == state && some u.dest == next_state) = none := by
      rw [List.find?_eq_none]
      intro u hu
      have := hpre u hu
      simp only [Bool.and_eq_true, beq_iff_eq]
      intro hcon
      exact this ⟨hcon.1, hcon.2⟩
    rw [hnone]
    simp only [Option.none_or, List.find?_cons]
    have : (t.source == state && some t.dest == next_state) = true := by
      simp only [Bool.and_eq_true, beq_iff_eq]
      exact ⟨ht.1, ht.2⟩
    rw [this]
  rw [hfind]

/-- C4 witness: a table with two transitions sharing the (source, dest) pair
ready to parking; lookup deterministically returns the first-declared
trigger. -/
theorem lookup_first_declared_wins_witness :
    _lookup_trigger
      [⟨"park_first", "ready", "parking", []⟩, ⟨"park_second", "ready", "parking", []⟩]
      "ready" (some "parking") = "park_first" :=
  lookup_first_declared_wins []
    [⟨"park_second", "ready", "parking", []⟩]
    ⟨"park_first", "ready", "parking", []⟩ "ready" (some "parking")
    (by decide) (by decide)

/-- C9: `stop_machine` sets the running flag to False and modifies nothing
else: the current state, the next state and the stored transition table
(hence every transition spec) are unchanged, and the operation is
idempotent, so repeated calls have the effect of one call. -/
theorem stop_machine_only_clears_running (s : MachineState) :
    (stop_machine s).is_running = false ∧
    (stop_machine s).state = s.state ∧
    (stop_machine s).next_state = s.next_state ∧
    (stop_machine s).transitions = s.transitions ∧
    stop_machine (stop_machine s) = stop_machine s := by
  refine ⟨rfl, rfl, rfl, rfl, rfl⟩

/-- C8: whenever the run loop returns normally (with any fuel), the returned
machine state has the running flag False: the loop body executes only while
the flag is true, so `run` cannot hand control back while still running. -/
theorem run_returns_only_stopped (invoke : String → MachineState → Except String MachineState)
    (bound : List String) (fuel : Nat) (s s' : MachineState)
    (h : run invoke bound fuel s = some s') : s'.is_running = false := by
  unfold run at h
  generalize hstart : ({ s with is_running := true, next_state := some "ready" } : MachineState) = s₀ at h
  clear hstart
  induction fuel generalizing s₀ with
  | zero =>
    by_cases hr : s₀.is_running = true
    · simp [runLoop, hr] at h
    · simp only [Bool.not_eq_true] at hr
      simp [runLoop, hr] at h
      exact h ▸ hr
  | succ n ih =>
    by_cases hr : s₀.is_running = true
    · simp only [runLoop, hr, if_true] at h
      exact ih _ h
    · simp only [Bool.not_eq_true] at hr
      simp [runLoop, hr] at h
      exact h ▸ hr

/-- C8 witness: a concrete run (over the one-transition table, with an
invoke that always raises) that returns normally; the theorem yields that
the returned state is not running, and evaluation confirms the run result. -/
theorem run_returns_only_stopped_witness :
    (run (fun _ _ => .error "fault") ["park"] 2
        ⟨"sleeping", none, false, [⟨"park", "ready", "parking", ["check_safety"]⟩]⟩ =
      some ⟨"sleeping", some "ready", false, [⟨"park", "ready", "parking", ["check_safety"]⟩]⟩) ∧
    (⟨"sleeping", some "ready", false,
        [⟨"park", "ready", "parking", ["check_safety"]⟩]⟩ : MachineState).is_running = false :=
  ⟨by decide, run_returns_only_stopped (fun _ _ => .error "fault") ["park"] 2
    ⟨"sleeping", none, false, [⟨"park", "ready", "parking", ["check_safety"]⟩]⟩
    ⟨"sleeping", some "ready", false, [⟨"park", "ready", "parking", ["check_safety"]⟩]⟩
    (by decide)⟩

/-- C2: if the behavior invoked for the resolved trigger raises at some loop
iteration, the exception is caught (the loop is a total function, nothing
propagates), a controlled stop follows, and the loop returns normally with
the running flag False and the current state exactly as it was before the
failed invocation — the external invocation, per the spec contract, mutates
the current state only as the final step of a successful call. -/
theorem run_loop_fault_degrades_to_stop
    (invoke : String → MachineState → Except String MachineState)
    (bound : List String) (s : MachineState) (e : String) (n : Nat)
    (hrun : s.is_running = true)
    (herr : invoke (resolvedCaller bound s) s = .error e) :
    runLoop invoke bound (n + 1) s = some (stop_machine s) ∧
    (stop_machine s).is_running = false ∧
    (stop_machine s).state = s.state := by
  refine ⟨?_, rfl, rfl⟩
  have hstep : runStep invoke bound s = stop_machine s := by
    unfold runStep
    rw [herr]
  simp only [runLoop, hrun, if_true, hstep]
  exact runLoop_not_running invoke bound n (stop_machine s) rfl

/-- C2 witness: a concrete running machine whose invoked behavior raises;
the run loop returns the stopped machine with the current state intact. -/
theorem run_loop_fault_degrades_to_stop_witness :
    runLoop (fun _ _ => .error "device fault") ["park"] 1
        ⟨"ready", some "parking", true, [⟨"park", "ready", "parking", ["check_safety"]⟩]⟩ =
      some ⟨"ready", some "parking", false, [⟨"park", "ready", "parking", ["check_safety"]⟩]⟩ :=
  (run_loop_fault_degrades_to_stop (fun _ _ => .error "device fault") ["park"]
    ⟨"ready", some "parking", true, [⟨"park", "ready", "parking", ["check_safety"]⟩]⟩
    "device fault" 0 rfl rfl).1

/-- C5 counterexample: a parsed table whose required states key is absent
does make construction fail, but with an AssertionError from the assert in
`__init__`, not with a ConfigError — refuting the claim that a missing
required top-level key fails with a ConfigError. -/
theorem missing_key_is_not_config_error :
    initStateMachine (.parsed ⟨none, some [], none, none⟩) = .error .assertionError ∧
    isConfigError (initStateMachine (.parsed ⟨none, some [], none, none⟩)) = false :=
  ⟨rfl, rfl⟩

/-- C5 amended: an unreadable or unparseable resource fails loading with a
ConfigError; an absent required top-level key (states or transitions) fails
construction with an AssertionError instead; in every such case
construction returns an error, so no partial machine is created. -/
theorem construction_failure_modes (t : StateTableDict) :
    isConfigError (initStateMachine .osError) = true ∧
    isConfigError (initStateMachine .parseError) = true ∧
    ((t.states.isNone ∨ t.transitions.isNone) →
      initStateMachine (.parsed t) = .error .assertionError) := by
  refine ⟨rfl, rfl, ?_⟩
  intro h
  unfold initStateMachine load_state_table
  rcases h with h | h
  · simp [h]
  · by_cases hs : t.states.isNone <;> simp [hs, h]

/-- C5 amended witness: a concrete table lacking the transitions key makes
construction fail with the AssertionError. -/
theorem construction_failure_modes_witness :
    initStateMachine (.parsed ⟨some ["ready"], none, none, none⟩) = .error .assertionError :=
  (construction_failure_modes ⟨some ["ready"], none, none, none⟩).2.2 (Or.inr rfl)

/-- C6: evaluating `_load_state` at the failing inputs: when the behavior
module import fails, the caught load error leaves the local s unbound and
the final return raises UnboundLocalError — construction of the state does
raise, contradicting the claim; and when the module loads without an
on_enter attribute, the function returns None rather than an enterable
State. -/
theorem load_state_raises_on_missing_module :
    _load_state .importFailure "sleeping" = .error (.unboundLocal "s") ∧
    _load_state (.loaded false) "sleeping" = .ok none :=
  ⟨rfl, rfl⟩

/-- C7 counterexample: with a failing status-refresh hook, the dispatch
stops after the second callback and the custom on-enter behavior of the
state never runs — refuting the claim that a failure in the second callback
does not prevent the third from running. -/
theorem status_failure_blocks_on_enter :
    (enterState "ready" (.ok ()) (.error "status fault") (.ok ())).1 =
      ["_update_graph", "_update_status"] ∧
    "on_enter_ready" ∉ (enterState "ready" (.ok ()) (.error "status fault") (.ok ())).1 := by
  decide

/-- C7 amended: the enter callbacks run in the fixed order graph update,
status refresh, custom on-enter; the graph hook is best-effort (a drawing
failure is swallowed and never blocks the later callbacks), but the status
hook is not: the on-enter behavior runs exactly when the status refresh
does not raise. -/
theorem enter_callback_order_and_effort (state : String)
    (graph_effect status_effect on_enter_effect : Except String Unit) :
    (status_effect = .ok () →
      (enterState state graph_effect status_effect on_enter_effect).1 =
        ["_update_graph", "_update_status", "on_enter_" ++ state]) ∧
    (∀ e, status_effect = .error e →
      (enterState state graph_effect status_effect on_enter_effect).1 =
        ["_update_graph", "_update_status"]) := by
  constructor
  · intro hs
    cases graph_effect <;> cases on_enter_effect <;>
      simp [enterState, runEnterCallbacks, _update_graph, _update_status, hs]
  · intro e hs
    cases graph_effect <;>
      simp [enterState, runEnterCallbacks, _update_graph, _update_status, hs]

/-- C7 amended witness: a failing graph hook and a raising on-enter
behavior, with a healthy status hook: all three callbacks are invoked, in
order. -/
theorem enter_callback_order_and_effort_witness :
    (enterState "ready" (.error "draw failure") (.ok ()) (.error "device fault")).1 =
      ["_update_graph", "_update_status", "on_enter_" ++ "ready"] :=
  (enter_callback_order_and_effort "ready" (.error "draw failure") (.ok ())
    (.error "device fault")).1 rfl

/-- Setting the position just past a list, after appending one element
there, replaces that appended element. -/
theorem set_append_length {α : Type} (l : List α) (a b : α) :
    (l ++ [a]).set l.length b = l ++ [b] := by
  induction l with
  | nil => rfl
  | cons x xs ih => simp [ih]

/-- Unfolding of `_load_transition` when the dict holds a condition-list
reference. -/
theorem load_transition_eq_of_ref (h : CondHeap) (dicts : DictHeap) (d r : Nat)
    (hc : condRefOf dicts d = some r) :
    _load_transition h dicts d =
      (h.set r ("check_safety" :: h.getD r []),
       dicts.set d { dicts.getD d default with conditions := some r },
       d) := by
  unfold condRefOf at hc
  unfold _load_transition
  rw [hc]
  simp [listifyConditions]

/-- Unfolding of `_load_transition` when the conditions key is absent: a
fresh one-element list object is allocated at the end of the heap. -/
theorem load_transition_eq_of_fresh (h : CondHeap) (dicts : DictHeap) (d : Nat)
    (hc : condRefOf dicts d = none) :
    _load_transition h dicts d =
      (h ++ [["check_safety"]],
       dicts.set d { dicts.getD d default with conditions := some h.length },
       d) := by
  unfold condRefOf at hc
  unfold _load_transition
  rw [hc]
  simp only [listifyConditions]
  have h1 : (h ++ [([] : List String)]).getD h.length [] = [] := by
    simp [List.getD_eq_getElem?_getD, List.getElem?_concat_length]
  rw [h1, set_append_length]

/-- Full characterization of one `_load_transition` step on an in-range
dict whose condition reference, when present, is in range: the same dict
reference is returned, the dict heap keeps its length and every other dict
object, the condition heap keeps or grows its length, the dict now points
at a condition list whose contents are check_safety prepended to the
original contents, the reference is the original one when a reference was
present and a fresh one (the old heap end) when not, and every condition
list object not referenced by this dict is untouched. -/
theorem load_transition_step_spec (h : CondHeap) (dicts : DictHeap) (d : Nat)
    (hd : d < dicts.length)
    (hr : ∀ r₀, condRefOf dicts d = some r₀ → r₀ < h.length) :
    ∃ rd,
      (_load_transition h dicts d).2.2 = d ∧
      (_load_transition h dicts d).2.1.length = dicts.length ∧
      h.length ≤ (_load_transition h dicts d).1.length ∧
      (∀ i, i ≠ d →
        (_load_transition h dicts d).2.1.getD i default = dicts.getD i default) ∧
      condRefOf (_load_transition h dicts d).2.1 d = some rd ∧
      rd < (_load_transition h dicts d).1.length ∧
      (_load_transition h dicts d).1.getD rd [] =
        "check_safety" :: condListOf h dicts d ∧
      (∀ r₀, condRefOf dicts d = some r₀ → rd = r₀) ∧
      (condRefOf dicts d = none →
        rd = h.length ∧ h.length < (_load_transition h dicts d).1.length) ∧
      (∀ j, j < h.length → condRefOf dicts d ≠ some j →
        (_load_transition h dicts d).1.getD j [] = h.getD j []) := by
  cases hc : condRefOf dicts d with
  | some r₀ =>
    have hr₀ : r₀ < h.length := hr r₀ hc
    rw [load_transition_eq_of_ref h dicts d r₀ hc]
    refine ⟨r₀, rfl, ?_, ?_, ?_, ?_, ?_, ?_, ?_, ?_, ?_⟩
    · exact List.length_set dicts d _
    · simp
    · intro i hi
      simp [List.getD_eq_getElem?_getD, List.getElem?_set_ne (Ne.symm hi)]
    · unfold condRefOf
      simp [List.getD_eq_getElem?_getD, List.getElem?_set_self hd]
    · simpa using hr₀
    · simp only [condListOf, hc]
      simp [List.getD_eq_getElem?_getD, List.getElem?_set_self hr₀]
    · intro r₁ hr₁
      exact Option.some.inj hr₁
    · intro hn
      exact Option.noConfusion hn
    · intro j _ hj
      have hne : r₀ ≠ j := fun he => hj (congrArg some he)
      simp [List.getD_eq_getElem?_getD, List.getElem?_set_ne hne]
  | none =>
    rw [load_transition_eq_of_fresh h dicts d hc]
    refine ⟨h.length, rfl, ?_, ?_, ?_, ?_, ?_, ?_, ?_, ?_, ?_⟩
    · exact List.length_set dicts d _
    · simp
    · intro i hi
      simp [List.getD_eq_getElem?_getD, List.getElem?_set_ne (Ne.symm hi)]
    · unfold condRefOf
      simp [List.getD_eq_getElem?_getD, List.getElem?_set_self hd]
    · simp
    · simp only [condListOf, hc]
      simp [List.getD_eq_getElem?_getD, List.getElem?_concat_length]
    · intro r₁ hr₁
      exact Option.noConfusion hr₁
    · intro _
      exact ⟨rfl, by simp⟩
    · intro j hjlen _
      simp [List.getD_eq_getElem?_getD, List.getElem?_append_left hjlen]

/-- The condition-list contents of a dict are unchanged when its reference
is unchanged and the heap cell it may point to is unchanged. -/
theorem condListOf_congr (h h' : CondHeap) (dicts dicts' : DictHeap) (x : Nat)
    (h1 : condRefOf dicts' x = condRefOf dicts x)
    (h2 : ∀ r, condRefOf dicts x = some r → h'.getD r [] = h.getD r []) :
    condListOf h' dicts' x = condListOf h dicts x := by
  unfold condListOf
  rw [h1]
  cases hc : condRefOf dicts x with
  | some r => exact h2 r hc
  | none => rfl

/-- The loading pass over a valid table: the dict references come back
unchanged in order, untouched dict and list objects are preserved, every
processed dict ends up pointing at a condition-list object holding
check_safety followed by its original conditions, and distinct processed
dicts hold pairwise distinct list references. -/
theorem loadTransitions_spec (ds : List Nat) (h : CondHeap) (dicts : DictHeap)
    (hA : ∀ d ∈ ds, d < dicts.length)
    (hB : ds.Nodup)
    (hC : ∀ d ∈ ds, ∀ r, condRefOf dicts d = some r → r < h.length)
    (hD : ∀ a ∈ ds, ∀ b ∈ ds, a ≠ b → ∀ r r', condRefOf dicts a = some r →
      condRefOf dicts b = some r' → r ≠ r') :
    (loadTransitions h dicts ds).2.2 = ds ∧
    (loadTransitions h dicts ds).2.1.length = dicts.length ∧
    h.length ≤ (loadTransitions h dicts ds).1.length ∧
    (∀ i, i ∉ ds →
      (loadTransitions h dicts ds).2.1.getD i default = dicts.getD i default) ∧
    (∀ j, j < h.length → (∀ d ∈ ds, condRefOf dicts d ≠ some j) →
      (loadTransitions h dicts ds).1.getD j [] = h.getD j []) ∧
    (∀ d ∈ ds, ∃ r, condRefOf (loadTransitions h dicts ds).2.1 d = some r ∧
      (loadTransitions h dicts ds).1.getD r [] =
        "check_safety" :: condListOf h dicts d ∧
      (∀ r₀, condRefOf dicts d = some r₀ → r = r₀) ∧
      (condRefOf dicts d = none → h.length ≤ r)) ∧
    (∀ a ∈ ds, ∀ b ∈ ds, a ≠ b → ∀ r r',
      condRefOf (loadTransitions h dicts ds).2.1 a = some r →
      condRefOf (loadTransitions h dicts ds).2.1 b = some r' → r ≠ r') := by
  induction ds generalizing h dicts with
  | nil =>
    refine ⟨rfl, rfl, le_refl _, fun i _ => rfl, fun j _ _ => rfl, ?_, ?_⟩
    · intro x hx; exact absurd hx (List.not_mem_nil x)
    · intro a ha; exact absurd ha (List.not_mem_nil a)
  | cons d ds ih =>
    have hdmem : d ∈ d :: ds := List.mem_cons_self d ds
    have hmem' : ∀ x ∈ ds, x ∈ d :: ds := fun x hx => List.mem_cons_of_mem d hx
    have hdlen : d < dicts.length := hA d hdmem
    have hdr : ∀ r₀, condRefOf dicts d = some r₀ → r₀ < h.length := hC d hdmem
    have hnd : d ∉ ds := (List.nodup_cons.mp hB).1
    have hB' : ds.Nodup := (List.nodup_cons.mp hB).2
    have hdx : ∀ x ∈ ds, d ≠ x := by
      intro x hx he
      subst he
      exact hnd hx
    obtain ⟨rd, s1, s2, s3, s4, s5, s6, s7, s8, s9, s10⟩ :=
      load_transition_step_spec h dicts d hdlen hdr
    simp only [loadTransitions]
    set H1 := (_load_transition h dicts d).1 with hH1def
    set D1 := (_load_transition h dicts d).2.1 with hD1def
    rw [s1]
    have hrefs : ∀ x ∈ ds, condRefOf D1 x = condRefOf dicts x := by
      intro x hx
      unfold condRefOf
      rw [s4 x (fun he => hnd (he ▸ hx))]
    have hA' : ∀ x ∈ ds, x < D1.length := by
      intro x hx
      rw [s2]
      exact hA x (hmem' x hx)
    have hC' : ∀ x ∈ ds, ∀ r, condRefOf D1 x = some r → r < H1.length := by
      intro x hx r hr'
      rw [hrefs x hx] at hr'
      exact lt_of_lt_of_le (hC x (hmem' x hx) r hr') s3
    have hD' : ∀ a ∈ ds, ∀ b ∈ ds, a ≠ b → ∀ r r', condRefOf D1 a = some r →
        condRefOf D1 b = some r' → r ≠ r' := by
      intro a ha b hb hab r r' h1 h2
      rw [hrefs a ha] at h1
      rw [hrefs b hb] at h2
      exact hD a (hmem' a ha) b (hmem' b hb) hab r r' h1 h2
    obtain ⟨p1, p2, p3, p4, p5, p6, p7⟩ := ih H1 D1 hA' hB' hC' hD'
    have hnotref : ∀ x ∈ ds, condRefOf D1 x ≠ some rd := by
      intro x hx hme
      rw [hrefs x hx] at hme
      cases hcd : condRefOf dicts d with
      | some r₀ =>
        exact hD d hdmem x (hmem' x hx) (hdx x hx) r₀ rd hcd hme (s8 r₀ hcd).symm
      | none =>
        have h9 := (s9 hcd).1
        have hlt : rd < h.length := hC x (hmem' x hx) rd hme
        exact (Nat.ne_of_lt hlt) h9
    have hfd : condRefOf (loadTransitions H1 D1 ds).2.1 d = some rd := by
      unfold condRefOf at s5 ⊢
      rw [p4 d hnd]
      exact s5
    have key : ∀ x ∈ ds, ∀ rx, condRefOf (loadTransitions H1 D1 ds).2.1 x = some rx →
        rd ≠ rx := by
      intro x hx rx hrx
      obtain ⟨r', q1, q2, q3, q4⟩ := p6 x hx
      have hrx' : rx = r' := by
        rw [q1] at hrx
        exact (Option.some.inj hrx).symm
      subst hrx'
      cases hcx : condRefOf D1 x with
      | some r₀ =>
        have hre : rx = r₀ := q3 r₀ hcx
        have hcx0 : condRefOf dicts x = some r₀ := (hrefs x hx).symm.trans hcx
        cases hcd : condRefOf dicts d with
        | some r₁ =>
          have h8 : rd = r₁ := s8 r₁ hcd
          have hne := hD d hdmem x (hmem' x hx) (hdx x hx) r₁ r₀ hcd hcx0
          rw [h8, hre]
          exact hne
        | none =>
          have h9 := (s9 hcd).1
          have hlt : r₀ < h.length := hC x (hmem' x hx) r₀ hcx0
          rw [hre, h9]
          exact Ne.symm (Nat.ne_of_lt hlt)
      | none =>
        have hge : H1.length ≤ rx := q4 hcx
        have hlt : rd < H1.length := s6
        exact Nat.ne_of_lt (lt_of_lt_of_le hlt hge)
    refine ⟨?_, ?_, ?_, ?_, ?_, ?_, ?_⟩
    · rw [p1]
    · rw [p2, s2]
    · exact le_trans s3 p3
    · intro i hi
      have hid : i ≠ d := fun he => hi (he ▸ hdmem)
      have his : i ∉ ds := fun hm => hi (hmem' i hm)
      rw [p4 i his, s4 i hid]
    · intro j hj hnone
      have hj1 : j < H1.length := lt_of_lt_of_le hj s3
      have hnone' : ∀ x ∈ ds, condRefOf D1 x ≠ some j := by
        intro x hx
        rw [hrefs x hx]
        exact hnone x (hmem' x hx)
      rw [p5 j hj1 hnone', s10 j hj (hnone d hdmem)]
    · intro x hx
      rcases List.mem_cons.mp hx with rfl | hx'
      · refine ⟨rd, hfd, ?_, s8, fun hnn => le_of_eq (s9 hnn).1.symm⟩
        rw [p5 rd s6 hnotref, s7]
      · obtain ⟨r, q1, q2, q3, q4⟩ := p6 x hx'
        refine ⟨r, q1, ?_, ?_, ?_⟩
        · rw [q2]
          have hcongr : condListOf H1 D1 x = condListOf h dicts x := by
            refine condListOf_congr h H1 dicts D1 x (hrefs x hx') ?_
            intro r₀ hr₀
            have hrlt : r₀ < h.length := hC x (hmem' x hx') r₀ hr₀
            have hne : condRefOf dicts d ≠ some r₀ := by
              cases hcd : condRefOf dicts d with
              | some r₁ =>
                intro hh
                exact hD d hdmem x (hmem' x hx') (hdx x hx') r₁ r₀ hcd hr₀
                  (Option.some.inj hh)
              | none => exact fun hh => Option.noConfusion hh
            exact s10 r₀ hrlt hne
          rw [hcongr]
        · intro r₀ hr₀
          exact q3 r₀ ((hrefs x hx').trans hr₀)
        · intro hn
          exact le_trans s3 (q4 ((hrefs x hx').trans hn))
    · intro a ha b hb hab r r' hra hrb
      rcases List.mem_cons.mp ha with rfl | ha' <;> rcases List.mem_cons.mp hb with rfl | hb'
      · exact absurd rfl hab
      · have hr : r = rd := by
          rw [hfd] at hra
          exact (Option.some.inj hra).symm
        rw [hr]
        exact key b hb' r' hrb
      · have hr : r' = rd := by
          rw [hfd] at hrb
          exact (Option.some.inj hrb).symm
        rw [hr]
        exact Ne.symm (key a ha' r hra)
      · exact p7 a ha' b hb' hab r r' hra hrb

/-- C1: for every valid state table — the transition dicts are pairwise
distinct objects, and their condition-list references, where present, are
in range and pairwise distinct, as produced by a YAML parse without shared
anchors — machine construction leaves every transition pointing at an
effective condition list whose first element is check_safety, and distinct
transitions never share the same backing condition-list object: their
references differ, so a mutation (a heap write) at the list of one
transition leaves the list of every other transition unchanged. -/
theorem transitions_safety_first_and_unshared
    (h : CondHeap) (dicts : DictHeap) (ds : List Nat)
    (hA : ∀ d ∈ ds, d < dicts.length)
    (hB : ds.Nodup)
    (hC : ∀ d ∈ ds, ∀ r, condRefOf dicts d = some r → r < h.length)
    (hD : ∀ a ∈ ds, ∀ b ∈ ds, a ≠ b → ∀ r r', condRefOf dicts a = some r →
      condRefOf dicts b = some r' → r ≠ r') :
    (∀ d ∈ ds, ∃ r, condRefOf (loadTransitions h dicts ds).2.1 d = some r ∧
      ((loadTransitions h dicts ds).1.getD r []).head? = some "check_safety") ∧
    (∀ a ∈ ds, ∀ b ∈ ds, a ≠ b → ∀ r r',
      condRefOf (loadTransitions h dicts ds).2.1 a = some r →
      condRefOf (loadTransitions h dicts ds).2.1 b = some r' →
      r ≠ r' ∧ ∀ xs, ((loadTransitions h dicts ds).1.set r xs).getD r' [] =
        (loadTransitions h dicts ds).1.getD r' []) := by
  obtain ⟨p1, p2, p3, p4, p5, p6, p7⟩ := loadTransitions_spec ds h dicts hA hB hC hD
  constructor
  · intro d hd
    obtain ⟨r, q1, q2, _, _⟩ := p6 d hd
    refine ⟨r, q1, ?_⟩
    rw [q2]
    rfl
  · intro a ha b hb hab r r' hra hrb
    have hne := p7 a ha b hb hab r r' hra hrb
    refine ⟨hne, fun xs => ?_⟩
    simp [List.getD_eq_getElem?_getD, List.getElem?_set_ne hne]

/-- C1 witness: a concrete two-transition table, one transition with a
declared condition list and one without; after loading, the first
transition points at a list headed by check_safety. -/
theorem transitions_safety_first_and_unshared_witness :
    ∃ r, condRefOf (loadTransitions [["mount_is_safe"]]
        [⟨"park", "ready", "parking", some 0⟩, ⟨"sleep", "parking", "sleeping", none⟩]
        [0, 1]).2.1 0 = some r ∧
      ((loadTransitions [["mount_is_safe"]]
        [⟨"park", "ready", "parking", some 0⟩, ⟨"sleep", "parking", "sleeping", none⟩]
        [0, 1]).1.getD r []).head? = some "check_safety" :=
  (transitions_safety_first_and_unshared [["mount_is_safe"]]
    [⟨"park", "ready", "parking", some 0⟩, ⟨"sleep", "parking", "sleeping", none⟩]
    [0, 1]
    (by decide) (by decide)
    (by intro d hd r hcr; fin_cases hd <;> simp_all [condRefOf])
    (by intro a ha b hb hab r r' h1 h2
        fin_cases ha <;> fin_cases hb <;> simp_all [condRefOf])).1 0 (by decide)

/-- C10: `_load_transition` mutates its argument dict object in place and
returns the same object: the returned reference equals the argument
reference, and afterwards the conditions entry of that dict points at a
list holding check_safety followed by the originally listed conditions;
the operation is not idempotent — a second application to the same dict
yields a condition list beginning with two check_safety entries. -/
theorem load_transition_in_place_not_idempotent
    (h : CondHeap) (dicts : DictHeap) (d : Nat)
    (hd : d < dicts.length)
    (hr : ∀ r₀, condRefOf dicts d = some r₀ → r₀ < h.length) :
    (_load_transition h dicts d).2.2 = d ∧
    (∃ r, condRefOf (_load_transition h dicts d).2.1 d = some r ∧
      (_load_transition h dicts d).1.getD r [] =
        "check_safety" :: condListOf h dicts d) ∧
    (∃ r, condRefOf (_load_transition (_load_transition h dicts d).1
        (_load_transition h dicts d).2.1 (_load_transition h dicts d).2.2).2.1 d = some r ∧
      (_load_transition (_load_transition h dicts d).1
        (_load_transition h dicts d).2.1 (_load_transition h dicts d).2.2).1.getD r [] =
        "check_safety" :: "check_safety" :: condListOf h dicts d) := by
  obtain ⟨rd, s1, s2, s3, s4, s5, s6, s7, s8, s9, s10⟩ :=
    load_transition_step_spec h dicts d hd hr
  refine ⟨s1, ⟨rd, s5, s7⟩, ?_⟩
  rw [s1]
  have hd2 : d < (_load_transition h dicts d).2.1.length := by
    rw [s2]
    exact hd
  have hr2 : ∀ r₀, condRefOf (_load_transition h dicts d).2.1 d = some r₀ →
      r₀ < (_load_transition h dicts d).1.length := by
    intro r₀ hr₀
    rw [s5] at hr₀
    rw [← Option.some.inj hr₀]
    exact s6
  obtain ⟨rd₂, t1, t2, t3, t4, t5, t6, t7, t8, t9, t10⟩ :=
    load_transition_step_spec (_load_transition h dicts d).1
      (_load_transition h dicts d).2.1 d hd2 hr2
  refine ⟨rd₂, t5, ?_⟩
  rw [t7]
  have hcl : condListOf (_load_transition h dicts d).1 (_load_transition h dicts d).2.1 d =
      "check_safety" :: condListOf h dicts d := by
    unfold condListOf
    rw [s5]
    exact s7
  rw [hcl]

/-- C10 witness: a concrete one-transition table with one declared
condition; two applications of the loader to the same dict leave its
condition list headed by two check_safety entries. -/
theorem load_transition_in_place_not_idempotent_witness :
    ∃ r, condRefOf (_load_transition
        (_load_transition [["mount_is_safe"]] [⟨"park", "ready", "parking", some 0⟩] 0).1
        (_load_transition [["mount_is_safe"]] [⟨"park", "ready", "parking", some 0⟩] 0).2.1
        (_load_transition [["mount_is_safe"]] [⟨"park", "ready", "parking", some 0⟩] 0).2.2).2.1
        0 = some r ∧
      (_load_transition
        (_load_transition [["mount_is_safe"]] [⟨"park", "ready", "parking", some 0⟩] 0).1
        (_load_transition [["mount_is_safe"]] [⟨"park", "ready", "parking", some 0⟩] 0).2.1
        (_load_transition [["mount_is_safe"]] [⟨"park", "ready", "parking", some 0⟩] 0).2.2).1.getD
        r [] =
        "check_safety" :: "check_safety" ::
          condListOf [["mount_is_safe"]] [⟨"park", "ready", "parking", some 0⟩] 0 :=
  (load_transition_in_place_not_idempotent [["mount_is_safe"]]
    [⟨"park", "ready", "parking", some 0⟩] 0 (by decide)
    (by intro r₀ hr₀; simp [condRefOf] at hr₀; simp [hr₀])).2.2

end POCS
